import Mathlib

/-!
Shallow embedding of the data migration
`server/data-migrations/1686829426671-BackFillCurrentEnvironmentId.ts`
(class `BackFillCurrentEnvironmentId1686829426671`).

The relational store is modelled as explicit lists of records.  The
migration's `up` entry point calls `backFillNewColumn`, which

  1. loads every `Organization` together with its `appEnvironments`;
  2. for each organization resolves `productionEnvironment` as
     `organization.appEnvironments.find((e) => e.isDefault)`;
  3. reloads every `App` together with its `appVersions`
     (note: the load in the source is NOT scoped to the organization);
  4. for every app version issues
     `manager.update(AppVersion, { id }, { currentEnvironmentId:
     productionEnvironment.id })` — the call is not awaited in the source,
     which we record in the `awaited` field of the emitted `WriteEvent`.

If `productionEnvironment` is `undefined` (no default-flagged environment),
the dereference `productionEnvironment.id` raises at the moment the first
update payload of that organization's pass is constructed; we model this as
an `Except.error` carrying the store state at the moment of failure.
`down` has an empty body in the source.
-/

/-- `AppEnvironment` entity: identifier and the default ("production") flag. -/
structure AppEnvironment where
  id : Nat
  isDefault : Bool
  deriving Repr, DecidableEq

/-- `Organization` entity, loaded with `relations: ['appEnvironments']`. -/
structure Organization where
  id : Nat
  appEnvironments : List AppEnvironment
  deriving Repr, DecidableEq

/-- `AppVersion` entity: identifier and the new `currentEnvironmentId`
column (nullable, hence `Option`). -/
structure AppVersion where
  id : Nat
  currentEnvironmentId : Option Nat
  deriving Repr, DecidableEq

/-- `App` entity, loaded with `relations: ['appVersions']`.  The
`organizationId` ownership column exists in the schema but is never
consulted by `backFillNewColumn`. -/
structure App where
  id : Nat
  organizationId : Nat
  appVersions : List AppVersion
  deriving Repr, DecidableEq

/-- The relational store visible to the migration's `EntityManager`. -/
structure Store where
  organizations : List Organization
  apps : List App
  deriving Repr, DecidableEq

/-- One `manager.update(AppVersion, ...)` call issued by the driver.
`awaited` records whether the source awaited the returned promise
(`manager.update` is not prefixed with `await` in the source). -/
structure WriteEvent where
  versionId : Nat
  newEnvId : Nat
  awaited : Bool
  deriving Repr, DecidableEq

/-- `organization.appEnvironments.find((appEnvironment) =>
appEnvironment.isDefault)` — the default-environment resolution. -/
def resolveDefault (envs : List AppEnvironment) : Option AppEnvironment :=
  envs.find? (fun e => e.isDefault)

/-- `manager.update(AppVersion, { id: vid }, { currentEnvironmentId: eid })`:
sets the new column on every stored `AppVersion` row whose id matches. -/
def updateVersion (s : Store) (vid : Nat) (eid : Nat) : Store :=
  { s with apps := s.apps.map (fun a =>
      { a with appVersions := a.appVersions.map (fun v =>
          if v.id = vid then { v with currentEnvironmentId := some eid }
          else v) }) }

/-- The ids of the app versions reached by the traversal
`for (const { appVersions } of apps) for (const appVersion of appVersions)`
after the unscoped `manager.find(App, ...)` — i.e. every version of every
app in the store, in store order. -/
def versionsOf (s : Store) : List Nat :=
  (s.apps.map (fun a => a.appVersions.map (fun v => v.id))).flatten

/-- The two inner loops of one organization's pass: for each version id,
dereference `productionEnvironment.id` (failure when the resolver returned
nothing — modelled as `Except.error` carrying the store at that moment) and
issue the update.  Returns the write events of the pass and the resulting
store. -/
def runVersions (defEnv : Option AppEnvironment) (vids : List Nat)
    (s : Store) : Except Store (List WriteEvent × Store) :=
  match vids with
  | [] => Except.ok ([], s)
  | v :: rest =>
    match defEnv with
    | none => Except.error s
    | some env =>
      match runVersions defEnv rest (updateVersion s v env.id) with
      | Except.ok (tr, sFin) =>
        Except.ok ({ versionId := v, newEnvId := env.id, awaited := false }
          :: tr, sFin)
      | Except.error sF => Except.error sF

/-- The outer loop `for (const organization of organizations)`: resolve the
default environment, reload all apps from the current store (unscoped), and
run the inner write loops. -/
def runOrgs (orgs : List Organization) (s : Store) :
    Except Store (List WriteEvent × Store) :=
  match orgs with
  | [] => Except.ok ([], s)
  | o :: rest =>
    match runVersions (resolveDefault o.appEnvironments) (versionsOf s) s with
    | Except.error sF => Except.error sF
    | Except.ok (tr, s1) =>
      match runOrgs rest s1 with
      | Except.error sF => Except.error sF
      | Except.ok (tr2, s2) => Except.ok (tr ++ tr2, s2)

/-- `backFillNewColumn(manager)`: load the organizations once, then iterate. -/
def backFillNewColumn (s : Store) : Except Store (List WriteEvent × Store) :=
  runOrgs s.organizations s

/-- `up(queryRunner)` simply awaits `backFillNewColumn`. -/
def up (s : Store) : Except Store (List WriteEvent × Store) :=
  backFillNewColumn s

/-- `down(queryRunner)` has an empty body: no reads, no writes. -/
def down (s : Store) : List WriteEvent × Store :=
  ([], s)

/-- The store a run leaves behind: the final store of a completed run, or
the store at the moment of failure of an aborted one. -/
def resultStore : Except Store (List WriteEvent × Store) → Store
  | Except.ok (_, s) => s
  | Except.error s => s

/-- The write events a run issued before completing (empty for an aborted
run in this model, failure being raised before the first write of the
failing pass). -/
def resultTrace : Except Store (List WriteEvent × Store) → List WriteEvent
  | Except.ok (tr, _) => tr
  | Except.error _ => []

/-- Pointwise transformation of every stored `AppVersion` row; the shape
shared by `updateVersion` and the frame statements below. -/
def mapVersions (f : AppVersion → AppVersion) (s : Store) : Store :=
  { s with apps := s.apps.map (fun a =>
      { a with appVersions := a.appVersions.map f }) }

/-- Forget every `currentEnvironmentId`; two stores agree under
`eraseEnvIds` exactly when they differ at most in that column. -/
def eraseEnvIds (s : Store) : Store :=
  mapVersions (fun v => { v with currentEnvironmentId := none }) s

/-- The per-version effect of one organization's completed pass: versions
whose id was reached get the resolved environment id, others are untouched. -/
def setIf (vids : List Nat) (eid : Nat) (v : AppVersion) : AppVersion :=
  if v.id ∈ vids then { v with currentEnvironmentId := some eid } else v

/-- The environment id an organization's pass writes (defaulting to `0`
when no default-flagged environment exists; that branch is only mentioned
in statements whose hypotheses rule it out or make it irrelevant). -/
def resolvedDefaultId (o : Organization) : Nat :=
  ((resolveDefault o.appEnvironments).map (fun e => e.id)).getD 0

/-- First `currentEnvironmentId` stored under a version id, for reading a
concrete run's outcome back out of the store. -/
def lookupVersionEnv (s : Store) (vid : Nat) : Option (Option Nat) :=
  ((s.apps.map (fun a => a.appVersions)).flatten.find?
      (fun v => v.id = vid)).map (fun v => v.currentEnvironmentId)

/-! ### Basic lemmas about the embedding -/

/-- `Array.prototype.find` returns the first element satisfying the
predicate: `find?` agrees with the head of the filtered list. -/
theorem find?_eq_head?_filter {α : Type} (p : α → Bool) (l : List α) :
    l.find? p = (l.filter p).head? := by
  induction l with
  | nil => rfl
  | cons a l ih =>
    by_cases h : p a
    · simp [List.find?_cons, List.filter_cons, h]
    · simp only [List.find?_cons, List.filter_cons, h, ih]
      rfl

theorem mapVersions_organizations (f : AppVersion → AppVersion) (s : Store) :
    (mapVersions f s).organizations = s.organizations := rfl

theorem mapVersions_congr (f g : AppVersion → AppVersion)
    (h : ∀ v, f v = g v) (s : Store) : mapVersions f s = mapVersions g s := by
  have hfg : f = g := funext h
  rw [hfg]

theorem map_versions_eta (l : List App) :
    l.map (fun a => { a with appVersions := a.appVersions.map (fun v => v) })
      = l := by
  induction l with
  | nil => rfl
  | cons a l ih => rw [List.map_cons, ih, List.map_id']

theorem mapVersions_id (s : Store) : mapVersions (fun v => v) s = s := by
  unfold mapVersions
  rw [map_versions_eta s.apps]

theorem mapVersions_mapVersions (f g : AppVersion → AppVersion) (s : Store) :
    mapVersions g (mapVersions f s) = mapVersions (fun v => g (f v)) s := by
  simp [mapVersions, List.map_map, Function.comp]

theorem versionsOf_mapVersions (f : AppVersion → AppVersion)
    (hf : ∀ v, (f v).id = v.id) (s : Store) :
    versionsOf (mapVersions f s) = versionsOf s := by
  unfold versionsOf mapVersions
  simp only [List.map_map]
  congr 1
  apply List.map_congr_left
  intro a _
  simp only [Function.comp_apply, List.map_map]
  apply List.map_congr_left
  intro v _
  exact hf v

theorem setIf_id_eq (vids : List Nat) (eid : Nat) (v : AppVersion) :
    (setIf vids eid v).id = v.id := by
  unfold setIf
  split <;> rfl

theorem setIf_setIf (vids : List Nat) (e1 e2 : Nat) (v : AppVersion) :
    setIf vids e2 (setIf vids e1 v) = setIf vids e2 v := by
  unfold setIf
  by_cases h : v.id ∈ vids <;> simp [h]

theorem updateVersion_eq (s : Store) (vid eid : Nat) :
    updateVersion s vid eid =
      mapVersions (fun v =>
        if v.id = vid then { v with currentEnvironmentId := some eid }
        else v) s := rfl

theorem mapVersions_setIf_nil (eid : Nat) (s : Store) :
    mapVersions (setIf [] eid) s = s := by
  rw [mapVersions_congr (setIf [] eid) (fun v => v) (by simp [setIf])]
  exact mapVersions_id s

theorem setIf_cons_step (v : Nat) (rest : List Nat) (eid : Nat)
    (w : AppVersion) :
    setIf rest eid
        (if w.id = v then { w with currentEnvironmentId := some eid }
         else w) =
      setIf (v :: rest) eid w := by
  by_cases h : w.id = v
  · simp [setIf, h]
  · simp [setIf, h]

/-- Closed form of one organization's pass when a default environment was
resolved: one unawaited write per reached version id, and the store is
mapped pointwise by `setIf`. -/
theorem runVersions_some (env : AppEnvironment) (vids : List Nat)
    (s : Store) :
    runVersions (some env) vids s =
      Except.ok
        (vids.map (fun v =>
          { versionId := v, newEnvId := env.id, awaited := false }),
         mapVersions (setIf vids env.id) s) := by
  induction vids generalizing s with
  | nil => simp [runVersions, mapVersions_setIf_nil]
  | cons v rest ih =>
    simp only [runVersions, ih, updateVersion_eq, mapVersions_mapVersions,
      List.map_cons]
    rw [mapVersions_congr _ _ (setIf_cons_step v rest env.id)]

theorem versionsOf_setIf (V : List Nat) (e : Nat) (s : Store) :
    versionsOf (mapVersions (setIf V e) s) = versionsOf s :=
  versionsOf_mapVersions _ (setIf_id_eq V e) s

/-- When the unscoped traversal reaches no app version at all, every
organization's pass is a no-op and the run completes with no writes. -/
theorem runOrgs_noVersions (orgs : List Organization) (s : Store)
    (hv : versionsOf s = []) : runOrgs orgs s = Except.ok ([], s) := by
  induction orgs with
  | nil => rfl
  | cons o rest ih =>
    simp only [runOrgs, hv, runVersions, ih]
    rfl

/-- Closed form of the whole run when every organization resolves a default
environment: it completes, emits one unawaited write per organization per
version, and folds the per-pass pointwise updates over the store. -/
theorem runOrgs_ok (orgs : List Organization) (s : Store)
    (hd : ∀ o ∈ orgs, (resolveDefault o.appEnvironments).isSome = true) :
    runOrgs orgs s =
      Except.ok
        (orgs.flatMap (fun o => (versionsOf s).map (fun v =>
          { versionId := v, newEnvId := resolvedDefaultId o,
            awaited := false })),
         orgs.foldl (fun st o =>
           mapVersions (setIf (versionsOf s) (resolvedDefaultId o)) st) s) := by
  induction orgs generalizing s with
  | nil => rfl
  | cons o rest ih =>
    have ho := hd o (List.mem_cons_self o rest)
    obtain ⟨env, henv⟩ := Option.isSome_iff_exists.mp ho
    have hid : env.id = resolvedDefaultId o := by
      simp [resolvedDefaultId, henv]
    have hrest : ∀ o2 ∈ rest, (resolveDefault o2.appEnvironments).isSome = true :=
      fun o2 h2 => hd o2 (List.mem_cons_of_mem o h2)
    have hV : versionsOf
        (mapVersions (setIf (versionsOf s) (resolvedDefaultId o)) s)
          = versionsOf s := versionsOf_setIf _ _ s
    simp only [runOrgs, henv, runVersions_some, hid,
      ih _ hrest, hV, List.flatMap_cons, List.foldl_cons]

/-- Folding the per-organization pointwise passes: the last organization's
write overwrites all earlier ones. -/
theorem foldl_setIf_last (V : List Nat) (o : Organization)
    (orgs : List Organization) (s : Store) (oL : Organization)
    (hL : (o :: orgs).getLast? = some oL) :
    (o :: orgs).foldl (fun st og =>
        mapVersions (setIf V (resolvedDefaultId og)) st) s =
      mapVersions (setIf V (resolvedDefaultId oL)) s := by
  induction orgs generalizing o s with
  | nil =>
    have ho : o = oL := by simpa using hL
    subst ho
    rfl
  | cons o2 rest ih =>
    have hL2 : (o2 :: rest).getLast? = some oL := by
      simpa [List.getLast?_cons_cons] using hL
    rw [List.foldl_cons, ih o2 _ hL2, mapVersions_mapVersions]
    exact mapVersions_congr _ _ (fun v => setIf_setIf V _ _ v) s

theorem mem_versionsOf (s : Store) (a : App) (v : AppVersion)
    (ha : a ∈ s.apps) (hv : v ∈ a.appVersions) : v.id ∈ versionsOf s := by
  unfold versionsOf
  rw [List.mem_flatten]
  exact ⟨a.appVersions.map (fun w => w.id),
    List.mem_map_of_mem _ ha, List.mem_map_of_mem _ hv⟩

/-- After a pass that reaches every stored version id, every stored version
carries the written environment id. -/
theorem mapVersions_setIf_all (s : Store) (e : Nat) (a : App)
    (v : AppVersion)
    (ha : a ∈ (mapVersions (setIf (versionsOf s) e) s).apps)
    (hv : v ∈ a.appVersions) :
    v.currentEnvironmentId = some e := by
  unfold mapVersions at ha
  simp only [List.mem_map] at ha
  obtain ⟨a0, ha0, rfl⟩ := ha
  simp only [List.mem_map] at hv
  obtain ⟨v0, hv0, rfl⟩ := hv
  have hmem : v0.id ∈ versionsOf s := mem_versionsOf s a0 v0 ha0 hv0
  simp [setIf, hmem]

theorem foldl_setIf_organizations (V : List Nat)
    (orgs : List Organization) (s : Store) :
    (orgs.foldl (fun st og =>
        mapVersions (setIf V (resolvedDefaultId og)) st) s).organizations
      = s.organizations := by
  induction orgs generalizing s with
  | nil => rfl
  | cons o rest ih =>
    rw [List.foldl_cons, ih]
    rfl

theorem foldl_setIf_versionsOf (V : List Nat)
    (orgs : List Organization) (s : Store) :
    versionsOf (orgs.foldl (fun st og =>
        mapVersions (setIf V (resolvedDefaultId og)) st) s)
      = versionsOf s := by
  induction orgs generalizing s with
  | nil => rfl
  | cons o rest ih =>
    rw [List.foldl_cons, ih, versionsOf_setIf]

/-- When some organization resolves no default environment and the
traversal reaches at least one version, the run aborts. -/
theorem runOrgs_error_of_missing (orgs : List Organization) (s : Store)
    (hv : versionsOf s ≠ [])
    (h : ¬ ∀ o ∈ orgs, (resolveDefault o.appEnvironments).isSome = true) :
    ∃ sF, runOrgs orgs s = Except.error sF := by
  induction orgs generalizing s with
  | nil =>
    refine absurd ?_ h
    intro o ho
    cases ho
  | cons o rest ih =>
    cases henv : resolveDefault o.appEnvironments with
    | none =>
      obtain ⟨v, vs, hV⟩ : ∃ v vs, versionsOf s = v :: vs := by
        cases hV : versionsOf s with
        | nil => exact absurd hV hv
        | cons v vs => exact ⟨v, vs, rfl⟩
      refine ⟨s, ?_⟩
      simp only [runOrgs, henv, hV, runVersions]
    | some env =>
      have hrest :
          ¬ ∀ o2 ∈ rest, (resolveDefault o2.appEnvironments).isSome = true := by
        intro hall
        apply h
        intro o2 ho2
        rcases List.mem_cons.mp ho2 with h1 | h2
        · subst h1
          simp [henv]
        · exact hall o2 h2
      have hv1 : versionsOf (mapVersions (setIf (versionsOf s) env.id) s)
          ≠ [] := by
        rw [versionsOf_setIf]
        exact hv
      obtain ⟨sF, hsF⟩ := ih _ hv1 hrest
      refine ⟨sF, ?_⟩
      simp only [runOrgs, henv, runVersions_some, hsF]

/-- A run that completed while at least one version was reachable resolved
a default environment for every organization. -/
theorem runOrgs_ok_defaults (orgs : List Organization) (s : Store)
    (tr : List WriteEvent) (sFin : Store) (hv : versionsOf s ≠ [])
    (h : runOrgs orgs s = Except.ok (tr, sFin)) :
    ∀ o ∈ orgs, (resolveDefault o.appEnvironments).isSome = true := by
  by_contra hno
  obtain ⟨sF, hsF⟩ := runOrgs_error_of_missing orgs s hv hno
  rw [h] at hsF
  simp at hsF

theorem erase_mapVersions_setIf (V : List Nat) (e : Nat) (s : Store) :
    eraseEnvIds (mapVersions (setIf V e) s) = eraseEnvIds s := by
  unfold eraseEnvIds
  rw [mapVersions_mapVersions]
  apply mapVersions_congr
  intro v
  unfold setIf
  split <;> rfl

theorem erase_runVersions (defEnv : Option AppEnvironment)
    (vids : List Nat) (s : Store) :
    eraseEnvIds (resultStore (runVersions defEnv vids s)) = eraseEnvIds s := by
  cases defEnv with
  | none =>
    cases vids with
    | nil => rfl
    | cons v rest => rfl
  | some env =>
    simp only [runVersions_some, resultStore]
    exact erase_mapVersions_setIf vids env.id s

theorem erase_runOrgs (orgs : List Organization) (s : Store) :
    eraseEnvIds (resultStore (runOrgs orgs s)) = eraseEnvIds s := by
  induction orgs generalizing s with
  | nil => rfl
  | cons o rest ih =>
    cases henv : resolveDefault o.appEnvironments with
    | none =>
      cases hV : versionsOf s with
      | nil =>
        have hrec := ih s
        simp only [runOrgs, henv, hV, runVersions]
        cases hr : runOrgs rest s with
        | error sF =>
          rw [hr] at hrec
          simpa [resultStore] using hrec
        | ok p =>
          obtain ⟨tr2, s2⟩ := p
          rw [hr] at hrec
          simpa [resultStore] using hrec
      | cons v vs =>
        simp only [runOrgs, henv, hV, runVersions, resultStore]
    | some env =>
      have hs1 : eraseEnvIds (mapVersions (setIf (versionsOf s) env.id) s)
          = eraseEnvIds s := erase_mapVersions_setIf _ _ s
      have hrec := ih (mapVersions (setIf (versionsOf s) env.id) s)
      simp only [runOrgs, henv, runVersions_some]
      cases hr : runOrgs rest (mapVersions (setIf (versionsOf s) env.id) s) with
      | error sF =>
        rw [hr] at hrec
        simp only [resultStore] at hrec ⊢
        rw [hrec, hs1]
      | ok p =>
        obtain ⟨tr2, s2⟩ := p
        rw [hr] at hrec
        simp only [resultStore] at hrec ⊢
        rw [hrec, hs1]

theorem getLast?_cons_isSome (o : Organization) (rest : List Organization) :
    ∃ oL, (o :: rest).getLast? = some oL := by
  induction rest generalizing o with
  | nil => exact ⟨o, rfl⟩
  | cons o2 rest ih =>
    obtain ⟨oL, hL⟩ := ih o2
    exact ⟨oL, by rw [List.getLast?_cons_cons, hL]⟩

theorem setIf_idem_map (V : List Nat) (e : Nat) (s : Store) :
    mapVersions (setIf V e) (mapVersions (setIf V e) s)
      = mapVersions (setIf V e) s := by
  rw [mapVersions_mapVersions]
  exact mapVersions_congr _ _ (fun v => setIf_setIf V e e v) s

/-- Full closed form of a successful run over a nonempty organization list:
the emitted trace and the final store, the latter collapsed to the last
organization's pointwise pass. -/
theorem backFill_ok_form (s : Store)
    (hd : ∀ o ∈ s.organizations,
      (resolveDefault o.appEnvironments).isSome = true)
    (o : Organization) (rest : List Organization)
    (horgs : s.organizations = o :: rest) (oL : Organization)
    (hL : (o :: rest).getLast? = some oL) :
    backFillNewColumn s =
      Except.ok ((o :: rest).flatMap (fun og => (versionsOf s).map (fun v =>
          { versionId := v, newEnvId := resolvedDefaultId og,
            awaited := false })),
        mapVersions (setIf (versionsOf s) (resolvedDefaultId oL)) s) := by
  unfold backFillNewColumn
  rw [horgs, runOrgs_ok _ _ (horgs ▸ hd), foldl_setIf_last _ _ _ _ _ hL]

theorem flatMap_const_length {α β : Type} (l : List α) (f : α → List β)
    (n : Nat) (h : ∀ a ∈ l, (f a).length = n) :
    (l.flatMap f).length = l.length * n := by
  induction l with
  | nil => simp
  | cons a t ih =>
    have ht := ih (fun b hb => h b (List.mem_cons_of_mem a hb))
    simp only [List.flatMap_cons, List.length_append, List.length_cons,
      h a (List.mem_cons_self a t), ht]
    ring

/-- If the first organization lacking a default environment is reached with
at least one version in the store, the run aborts exactly at the start of
that organization's pass: the error store `sF` is the pass's starting store
(`runOrgs (o :: rest) sF = Except.error sF`, no write of that pass
applied), and earlier passes touched only the environment column. -/
theorem runOrgs_first_missing (pre : List Organization) (o : Organization)
    (rest : List Organization) (s : Store)
    (hpre : ∀ p ∈ pre, (resolveDefault p.appEnvironments).isSome = true)
    (ho : resolveDefault o.appEnvironments = none)
    (hv : versionsOf s ≠ []) :
    ∃ sF, runOrgs (pre ++ o :: rest) s = Except.error sF ∧
      runOrgs (o :: rest) sF = Except.error sF ∧
      eraseEnvIds sF = eraseEnvIds s := by
  induction pre generalizing s with
  | nil =>
    obtain ⟨v, vs, hV⟩ : ∃ v vs, versionsOf s = v :: vs := by
      cases hV : versionsOf s with
      | nil => exact absurd hV hv
      | cons v vs => exact ⟨v, vs, rfl⟩
    refine ⟨s, ?_, ?_, rfl⟩
    · simp only [List.nil_append, runOrgs, ho, hV, runVersions]
    · simp only [runOrgs, ho, hV, runVersions]
  | cons p pre2 ih =>
    have hp := hpre p (List.mem_cons_self p pre2)
    obtain ⟨env, henv⟩ := Option.isSome_iff_exists.mp hp
    have hv1 : versionsOf (mapVersions (setIf (versionsOf s) env.id) s)
        ≠ [] := by
      rw [versionsOf_setIf]
      exact hv
    obtain ⟨sF, h1, h2, h3⟩ :=
      ih (mapVersions (setIf (versionsOf s) env.id) s)
        (fun q hq => hpre q (List.mem_cons_of_mem p hq)) hv1
    refine ⟨sF, ?_, h2, ?_⟩
    · simp only [List.cons_append, runOrgs, henv, runVersions_some,
        List.append_eq, h1]
    · rw [h3, erase_mapVersions_setIf]

/-! ### Concrete stores used by the claim theorems -/

/-- O1 (id 1) owns E1 (id 10, default) and E2 (id 11); O2 (id 2) owns E3
(id 12, default); app A1 (id 20, owned by O1) has versions V1 (id 30) and
V2 (id 31); O2 owns no apps. -/
def c1Store : Store :=
  { organizations :=
      [{ id := 1, appEnvironments :=
           [{ id := 10, isDefault := true }, { id := 11, isDefault := false }] },
       { id := 2, appEnvironments := [{ id := 12, isDefault := true }] }],
    apps := [{ id := 20, organizationId := 1,
               appVersions := [{ id := 30, currentEnvironmentId := none },
                               { id := 31, currentEnvironmentId := none }] }] }

/-- One organization with zero default-flagged environments, one app with
no versions. -/
def c3Store : Store :=
  { organizations := [{ id := 1, appEnvironments := [] }],
    apps := [{ id := 5, organizationId := 1, appVersions := [] }] }

/-- The organization of `c3wStore`, which has zero default-flagged
environments. -/
def c3wOrg : Organization := { id := 1, appEnvironments := [] }

/-- One organization with zero default-flagged environments, one app with
one version. -/
def c3wStore : Store :=
  { organizations := [c3wOrg],
    apps := [{ id := 5, organizationId := 1,
               appVersions := [{ id := 30, currentEnvironmentId := none }] }] }

/-- Two environments both flagged default. -/
def c4Envs : List AppEnvironment :=
  [{ id := 1, isDefault := true }, { id := 2, isDefault := true }]

/-- Two organizations, each with one default environment (ids 10 and 12),
one app with one version. -/
def c2wStore : Store :=
  { organizations :=
      [{ id := 1, appEnvironments := [{ id := 10, isDefault := true }] },
       { id := 2, appEnvironments := [{ id := 12, isDefault := true }] }],
    apps := [{ id := 20, organizationId := 1,
               appVersions := [{ id := 30, currentEnvironmentId := none }] }] }

/-- One organization with a default environment (id 10), one app with one
version (id 30). -/
def c8Store : Store :=
  { organizations :=
      [{ id := 1, appEnvironments := [{ id := 10, isDefault := true }] }],
    apps := [{ id := 20, organizationId := 1,
               appVersions := [{ id := 30, currentEnvironmentId := none }] }] }

/-- An organization lacking a default environment and an app owning no
version. -/
def c9wStore : Store :=
  { organizations := [{ id := 1, appEnvironments := [] }],
    apps := [{ id := 5, organizationId := 1, appVersions := [] }] }

/-- One organization with a default environment (id 10), one app with one
version (id 30). -/
def c10wStore : Store :=
  { organizations :=
      [{ id := 1, appEnvironments := [{ id := 10, isDefault := true }] }],
    apps := [{ id := 20, organizationId := 1,
               appVersions := [{ id := 30, currentEnvironmentId := none }] }] }

/-- The store `c10wStore` after its single write. -/
def c10wFin : Store :=
  { organizations :=
      [{ id := 1, appEnvironments := [{ id := 10, isDefault := true }] }],
    apps := [{ id := 20, organizationId := 1,
               appVersions := [{ id := 30, currentEnvironmentId := some 10 }] }] }

/-! ### Claim theorems -/

/-- C1 (code bug): in the concrete store of the claim — O1 with default E1
(id 10) and one app with versions V1 (id 30), V2 (id 31), plus O2 with
default E3 (id 12) and no apps — the run of `backFillNewColumn` completes,
but V1 and V2 end up referencing E3 (id 12), not O1's default E1 (id 10):
O2's pass reloads every app unscoped and overwrites O1's assignment, so the
claimed per-tenant outcome `V1.currentEnvironmentId = E1.id` fails on the
code. -/
theorem c1_run_violates_per_tenant_assignment :
    (backFillNewColumn c1Store).isOk = true ∧
    lookupVersionEnv (resultStore (backFillNewColumn c1Store)) 30
      = some (some 12) ∧
    lookupVersionEnv (resultStore (backFillNewColumn c1Store)) 31
      = some (some 12) ∧
    lookupVersionEnv (resultStore (backFillNewColumn c1Store)) 30
      ≠ some (some 10) := by
  decide

/-- C2: over any store with two or more organizations, each resolving a
default environment, and at least one reachable app version, the run
completes and every app version in the entire final store holds the default
environment id of the last organization in iteration order. -/
theorem backFill_last_org_default_wins (s : Store)
    (h2 : 2 ≤ s.organizations.length)
    (hd : ∀ o ∈ s.organizations,
      (resolveDefault o.appEnvironments).isSome = true)
    (hv : versionsOf s ≠ []) :
    ∃ tr sFin oLast envLast,
      backFillNewColumn s = Except.ok (tr, sFin) ∧
      s.organizations.getLast? = some oLast ∧
      resolveDefault oLast.appEnvironments = some envLast ∧
      ∀ a ∈ sFin.apps, ∀ v ∈ a.appVersions,
        v.currentEnvironmentId = some envLast.id := by
  obtain ⟨o, rest, horgs⟩ : ∃ o rest, s.organizations = o :: rest := by
    cases ho : s.organizations with
    | nil =>
      rw [ho] at h2
      exact absurd h2 (by simp)
    | cons o rest => exact ⟨o, rest, rfl⟩
  obtain ⟨oL, hL⟩ := getLast?_cons_isSome o rest
  have hmemL : oL ∈ s.organizations := by
    rw [horgs]
    exact List.mem_of_mem_getLast? hL
  obtain ⟨envL, henvL⟩ := Option.isSome_iff_exists.mp (hd oL hmemL)
  have hid : resolvedDefaultId oL = envL.id := by
    simp [resolvedDefaultId, henvL]
  refine ⟨_, _, oL, envL, backFill_ok_form s hd o rest horgs oL hL, ?_,
    henvL, ?_⟩
  · rw [horgs]
    exact hL
  · intro a ha v hv2
    have hset := mapVersions_setIf_all s (resolvedDefaultId oL) a v ha hv2
    rw [hid] at hset
    exact hset

/-- C2 witness: the theorem applied to `c2wStore`, whose organizations
resolve defaults 10 and 12 and which stores one app version. -/
theorem backFill_last_org_default_wins_witness :
    (2 ≤ c2wStore.organizations.length) ∧ (versionsOf c2wStore ≠ []) ∧
    ∃ tr sFin oLast envLast,
      backFillNewColumn c2wStore = Except.ok (tr, sFin) ∧
      c2wStore.organizations.getLast? = some oLast ∧
      resolveDefault oLast.appEnvironments = some envLast ∧
      ∀ a ∈ sFin.apps, ∀ v ∈ a.appVersions,
        v.currentEnvironmentId = some envLast.id :=
  ⟨by decide, by decide,
    backFill_last_org_default_wins c2wStore (by decide) (by decide)
      (by decide)⟩

/-- C3 counterexample: `c3Store` contains an organization with zero
default-flagged environments, yet the run completes without raising any
failure (no app version exists, so the failing dereference is never
reached), refuting the claim that every such store makes the run raise. -/
theorem c3_no_failure_when_no_versions :
    (∃ o ∈ c3Store.organizations,
      resolveDefault o.appEnvironments = none) ∧
    backFillNewColumn c3Store = Except.ok ([], c3Store) := by
  constructor
  · decide
  · rfl

/-- C3 (amended): if the first organization lacking a default-flagged
environment is `o` (all organizations before it resolve one) and the store
holds at least one app version, the run aborts; the error store `sF` is
exactly the store at the start of `o`'s pass (`runOrgs (o :: rest) sF =
Except.error sF`: the failure is raised while constructing the first write
of that pass, so no app version has been mutated by that pass), and the
passes before it touched only the `currentEnvironmentId` column. -/
theorem backFill_missing_default_aborts_before_write (s : Store)
    (pre : List Organization) (o : Organization) (rest : List Organization)
    (horgs : s.organizations = pre ++ o :: rest)
    (hpre : ∀ p ∈ pre, (resolveDefault p.appEnvironments).isSome = true)
    (ho : resolveDefault o.appEnvironments = none)
    (hv : versionsOf s ≠ []) :
    ∃ sF, backFillNewColumn s = Except.error sF ∧
      runOrgs (o :: rest) sF = Except.error sF ∧
      eraseEnvIds sF = eraseEnvIds s := by
  unfold backFillNewColumn
  rw [horgs]
  exact runOrgs_first_missing pre o rest s hpre ho hv

/-- C3 witness: the amended theorem applied to `c3wStore`, whose single
organization has no default environment and whose single app holds one
version. -/
theorem backFill_missing_default_aborts_before_write_witness :
    (c3wStore.organizations = [] ++ c3wOrg :: []) ∧
    resolveDefault c3wOrg.appEnvironments = none ∧
    versionsOf c3wStore ≠ [] ∧
    ∃ sF, backFillNewColumn c3wStore = Except.error sF ∧
      runOrgs (c3wOrg :: []) sF = Except.error sF ∧
      eraseEnvIds sF = eraseEnvIds c3wStore :=
  ⟨rfl, rfl, by decide,
    backFill_missing_default_aborts_before_write c3wStore [] c3wOrg []
      rfl (by decide) rfl (by decide)⟩

/-- C4: with more than one default-flagged environment, the resolution is
the deterministic first default-flagged record in loaded list order —
`find` returns the head of the filtered list — and it resolves a single
environment. -/
theorem resolveDefault_picks_first (envs : List AppEnvironment)
    (h : 1 < (envs.filter (fun e => e.isDefault)).length) :
    ∃ e, resolveDefault envs = some e ∧
      resolveDefault envs = (envs.filter (fun e => e.isDefault)).head? := by
  have hf := find?_eq_head?_filter (fun e => e.isDefault) envs
  cases hfil : envs.filter (fun e => e.isDefault) with
  | nil =>
    rw [hfil] at h
    exact absurd h (by simp)
  | cons e restf =>
    refine ⟨e, ?_, ?_⟩
    · unfold resolveDefault
      rw [hf, hfil]
      rfl
    · unfold resolveDefault
      rw [hf, hfil]

/-- C4 witness: two environments both flagged default; the first is
resolved. -/
theorem resolveDefault_picks_first_witness :
    (1 < (c4Envs.filter (fun e => e.isDefault)).length) ∧
    ∃ e, resolveDefault c4Envs = some e ∧
      resolveDefault c4Envs = (c4Envs.filter (fun e => e.isDefault)).head? :=
  ⟨by decide, resolveDefault_picks_first c4Envs (by decide)⟩

/-- C5: running `backFillNewColumn` twice in succession (the second run on
the first run's resulting store, errors propagating) is indistinguishable
from running it once: same final store, same emitted trace, same failure. -/
theorem backFill_idempotent (s : Store) :
    (backFillNewColumn s).bind (fun r => backFillNewColumn r.2)
      = backFillNewColumn s := by
  by_cases hv : versionsOf s = []
  · have h1 : backFillNewColumn s = Except.ok ([], s) :=
      runOrgs_noVersions s.organizations s hv
    rw [h1]
    exact h1
  · by_cases hd : ∀ o ∈ s.organizations,
        (resolveDefault o.appEnvironments).isSome = true
    · cases horgs : s.organizations with
      | nil =>
        have h1 : backFillNewColumn s = Except.ok ([], s) := by
          unfold backFillNewColumn
          rw [horgs]
          rfl
        rw [h1]
        exact h1
      | cons o rest =>
        obtain ⟨oL, hL⟩ := getLast?_cons_isSome o rest
        have h1 := backFill_ok_form s hd o rest horgs oL hL
        have horgsF : (mapVersions (setIf (versionsOf s)
            (resolvedDefaultId oL)) s).organizations = o :: rest := horgs
        have hdF : ∀ og ∈ (mapVersions (setIf (versionsOf s)
              (resolvedDefaultId oL)) s).organizations,
            (resolveDefault og.appEnvironments).isSome = true := hd
        have h2 := backFill_ok_form _ hdF o rest horgsF oL hL
        have hVF : versionsOf (mapVersions (setIf (versionsOf s)
            (resolvedDefaultId oL)) s) = versionsOf s :=
          versionsOf_setIf _ _ s
        rw [hVF, setIf_idem_map] at h2
        rw [h1]
        exact h2
    · obtain ⟨sF, hsF⟩ := runOrgs_error_of_missing s.organizations s hv hd
      have h1 : backFillNewColumn s = Except.error sF := hsF
      rw [h1]
      rfl

/-- C6: the backward entry point performs no writes and leaves the store
exactly unchanged. -/
theorem down_performs_nothing (s : Store) : down s = ([], s) := rfl

/-- C7: every run — completed or aborted — leaves the organizations
untouched and changes the stored apps at most in the
`currentEnvironmentId` column of their versions: erasing that column
recovers the starting store, so nothing is created, deleted, or otherwise
mutated. -/
theorem backFill_touches_only_env_column (s : Store) :
    eraseEnvIds (resultStore (backFillNewColumn s)) = eraseEnvIds s ∧
    (resultStore (backFillNewColumn s)).organizations = s.organizations := by
  have h := erase_runOrgs s.organizations s
  have h2 := congrArg Store.organizations h
  exact ⟨h, h2⟩

/-- C8 (code bug): on a store with one organization (default environment
id 10) and one app version (id 30), the run completes having issued a
write, and every issued write is unawaited (`manager.update` is called
without `await` in the source), contradicting the claim that each write is
awaited before the run completes. -/
theorem backFill_write_not_awaited :
    (backFillNewColumn c8Store).isOk = true ∧
    resultTrace (backFillNewColumn c8Store) ≠ [] ∧
    ∀ e ∈ resultTrace (backFillNewColumn c8Store), e.awaited = false := by
  decide

/-- C9: when no app owns any version, the run completes without any
failure and issues no writes, even if organizations lack default-flagged
environments: the failing dereference sits inside the construction of the
first update of a pass and is never reached. -/
theorem backFill_no_versions_no_writes (s : Store)
    (h : ∀ a ∈ s.apps, a.appVersions = []) :
    backFillNewColumn s = Except.ok ([], s) := by
  have hv : versionsOf s = [] := by
    unfold versionsOf
    rw [List.flatten_eq_nil_iff]
    intro l hl
    simp only [List.mem_map] at hl
    obtain ⟨a, ha, rfl⟩ := hl
    rw [h a ha]
    rfl
  exact runOrgs_noVersions s.organizations s hv

/-- C9 witness: a store whose only organization has zero default-flagged
environments and whose only app owns no version. -/
theorem backFill_no_versions_no_writes_witness :
    (∀ a ∈ c9wStore.apps, a.appVersions = []) ∧
    backFillNewColumn c9wStore = Except.ok ([], c9wStore) :=
  ⟨by decide, backFill_no_versions_no_writes c9wStore (by decide)⟩

/-- C10: a run that completes emits exactly one write per organization per
stored app version — `organizations.length * versions` writes in total —
and each write of an organization's pass carries that organization's
resolved default environment id. -/
theorem backFill_write_count (s : Store) (tr : List WriteEvent)
    (sFin : Store) (h : backFillNewColumn s = Except.ok (tr, sFin)) :
    tr = s.organizations.flatMap (fun o => (versionsOf s).map (fun v =>
        { versionId := v, newEnvId := resolvedDefaultId o,
          awaited := false })) ∧
    tr.length = s.organizations.length * (versionsOf s).length := by
  have hrun : runOrgs s.organizations s = Except.ok (tr, sFin) := h
  by_cases hv : versionsOf s = []
  · rw [runOrgs_noVersions s.organizations s hv] at hrun
    simp only [Except.ok.injEq, Prod.mk.injEq] at hrun
    obtain ⟨htr, _⟩ := hrun
    subst htr
    constructor
    · rw [hv]
      simp
    · simp [hv]
  · have hd := runOrgs_ok_defaults s.organizations s tr sFin hv hrun
    rw [runOrgs_ok _ _ hd] at hrun
    simp only [Except.ok.injEq, Prod.mk.injEq] at hrun
    obtain ⟨htr, _⟩ := hrun
    refine ⟨htr.symm, ?_⟩
    rw [← htr]
    exact flatMap_const_length _ _ _ (fun o ho => by simp)

/-- C10 witness: one organization, one version; the single write carries
the organization's default environment id 10. -/
theorem backFill_write_count_witness :
    backFillNewColumn c10wStore =
      Except.ok ([{ versionId := 30, newEnvId := 10, awaited := false }],
        c10wFin) ∧
    (([{ versionId := 30, newEnvId := 10, awaited := false }] :
        List WriteEvent) =
      c10wStore.organizations.flatMap (fun o =>
        (versionsOf c10wStore).map (fun v =>
          { versionId := v, newEnvId := resolvedDefaultId o,
            awaited := false })) ∧
    ([{ versionId := 30, newEnvId := 10, awaited := false }] :
        List WriteEvent).length =
      c10wStore.organizations.length * (versionsOf c10wStore).length) :=
  ⟨rfl, backFill_write_count c10wStore
    [{ versionId := 30, newEnvId := 10, awaited := false }] c10wFin rfl⟩
